import Mathlib

/-!
Verification development for the AtomSpace hypergraph store of the
`rsyncog` repository: a shallow embedding of `src/atomspace.c`,
`src/atomspace_persistence.c`, `src/distributed_atomspace.c` and
`src/pln_inference.c`, followed by theorems about the embedded code.

Modelling conventions:
* C machine integers (`uint64_t` handles, counters, `time_t`) are `Nat`;
  `float` truth values are exact rationals `ℚ` (the claims under study are
  algebraic identities of the formulas, not rounding statements).
* `time(NULL)` is an explicit `now : Nat` parameter threaded through every
  operation that reads the clock.
* Heap mutation through atom pointers becomes explicit state passing: an
  operation returns the (possibly updated) atom value together with the
  updated store.  A C `NULL` result is `Option.none`; a `const char *name`
  argument that may be `NULL` is `Option String`.
* `malloc` failure paths and the socket layer are outside the model: every
  allocation succeeds and every `send` transmits (names are far below the
  64 KiB serialization buffer in all statements below).
-/

set_option autoImplicit false
set_option maxRecDepth 20000
set_option maxHeartbeats 1000000

/-- Truth value from `atomspace.h`: `struct truth_value { float strength; float confidence; }`. -/
@[ext]
structure truth_value where
  strength : ℚ
  confidence : ℚ
deriving DecidableEq

/-- Attention value from `atomspace.h`: `struct attention_value { int16_t sti; int16_t lti; uint16_t vlti; }`. -/
@[ext]
structure attention_value where
  sti : Int
  lti : Int
  vlti : Nat
deriving DecidableEq

/-- Node type enumeration `atom_type` from `atomspace.h`. -/
inductive atom_type where
  | ATOM_NODE | ATOM_CONCEPT | ATOM_RSYNC_DAEMON | ATOM_SYNC_PATH
  | ATOM_HOST | ATOM_MODULE | ATOM_SWARM
deriving DecidableEq

/-- Link type enumeration `link_type` from `atomspace.h`. -/
inductive link_type where
  | LINK_INHERITANCE | LINK_SIMILARITY | LINK_SYNC_TOPOLOGY
  | LINK_SWARM_MEMBER | LINK_AUTH_TRUST | LINK_DEPENDENCY
deriving DecidableEq

/-- `struct atom` from `atomspace.h` (the opaque `rsync_data` payload, which no
modelled operation reads or writes, is omitted; `hash_next` becomes the list
structure of the bucket the atom sits in). -/
@[ext]
structure atom where
  handle : Nat
  type : atom_type
  name : String
  tv : truth_value
  av : attention_value
  created : Nat
  last_accessed : Nat
  access_count : Nat
deriving DecidableEq

/-- `struct atom_link` from `atomspace.h`.  The `outgoing` pointer array is
modelled as the list of pointed-to atom values at creation time. -/
@[ext]
structure atom_link where
  handle : Nat
  type : link_type
  outgoing : List atom
  tv : truth_value
  av : attention_value
  created : Nat
deriving DecidableEq

def ATOM_TABLE_SIZE : Nat := 1024
def LINK_TABLE_SIZE : Nat := 512
def ATTENTION_QUEUE_SIZE : Nat := 256

/-- `struct atom_space` from `atomspace.h`.  The two chained hash tables are
total functions from bucket index to bucket contents (buckets at index `≥`
table size are never written and stay empty).  The attention queue is a
256-slot array of atom pointers; `atomspace_create` zeroes it and no function
in the source ever stores into it, so its slots are `Option atom` that remain
`none`.  The `sync_topology_root` / `swarm_nodes` fields play no role in the
claims and are omitted. -/
@[ext]
structure atom_space where
  atom_table : Nat → List atom
  link_table : Nat → List atom_link
  atom_count : Nat
  link_count : Nat
  next_handle : Nat
  attention_queue : Nat → Option atom

/-- djb2 hash of `atomspace.c:atom_hash`, on `uint32_t`:
`hash = 5381; while (c = *name++) hash = hash*33 + c;`.  Each step wraps
modulo `2^32`; names in this development are ASCII so `char` promotion is
the plain code point. -/
def atom_hash (name : String) : Nat :=
  name.toList.foldl (fun h c => (h * 33 + c.toNat) % 2 ^ 32) 5381

/-- `atomspace_create` from `atomspace.c`: empty tables, zero counters,
`next_handle = 1`. -/
def atomspace_create : atom_space where
  atom_table := fun _ => []
  link_table := fun _ => []
  atom_count := 0
  link_count := 0
  next_handle := 1
  attention_queue := fun _ => none

/-- Default truth value given to freshly created atoms and links
(`strength = 1.0, confidence = 0.0`). -/
def default_tv : truth_value := { strength := 1, confidence := 0 }

/-- Zeroed attention value given to freshly created atoms and links. -/
def zero_av : attention_value := { sti := 0, lti := 0, vlti := 0 }

/-- The in-place `last_accessed = time(NULL); access_count++` bookkeeping that
`atomspace_find_node` (and `atomspace_get_atom`) perform on a hit. -/
def touch_atom (now : Nat) (a : atom) : atom :=
  { a with last_accessed := now, access_count := a.access_count + 1 }

/-- Bucket scan of `atomspace_find_node`: walk the chain, return the first
atom with equal type and name, updated in place (the returned atom and the
stored atom are the same heap object in C). -/
def find_touch (now : Nat) (t : atom_type) (n : String) :
    List atom → Option (atom × List atom)
  | [] => none
  | a :: rest =>
    if a.type = t ∧ a.name = n then
      some (touch_atom now a, touch_atom now a :: rest)
    else
      match find_touch now t n rest with
      | none => none
      | some (found, rest') => some (found, a :: rest')

/-- `atomspace_find_node` from `atomspace.c`: hash the name, scan that bucket
for matching type and name, touch the access metadata on a hit. -/
def atomspace_find_node (now : Nat) (as : atom_space) (t : atom_type) (n : String) :
    Option atom × atom_space :=
  let b := atom_hash n % ATOM_TABLE_SIZE
  match find_touch now t n (as.atom_table b) with
  | none => (none, as)
  | some (found, bucket') =>
      (some found,
       { as with atom_table := fun j => if j = b then bucket' else as.atom_table j })

/-- `atomspace_add_node` from `atomspace.c`.  A `NULL` name returns `NULL`
immediately; an existing `(type, name)` atom is returned (touched by the
embedded `atomspace_find_node` call); otherwise a fresh atom takes the next
handle, default truth value `(1.0, 0.0)`, zero attention, and is prepended to
its name-hash bucket, incrementing `atom_count`. -/
def atomspace_add_node (now : Nat) (as : atom_space) (t : atom_type)
    (name : Option String) : Option atom × atom_space :=
  match name with
  | none => (none, as)
  | some n =>
    match atomspace_find_node now as t n with
    | (some found, as') => (some found, as')
    | (none, _) =>
        let a : atom :=
          { handle := as.next_handle, type := t, name := n,
            tv := default_tv, av := zero_av,
            created := now, last_accessed := now, access_count := 0 }
        let b := atom_hash n % ATOM_TABLE_SIZE
        (some a,
         { as with
             next_handle := as.next_handle + 1,
             atom_count := as.atom_count + 1,
             atom_table := fun j => if j = b then a :: as.atom_table j else as.atom_table j })

/-- `atomspace_add_link` from `atomspace.c`: rejects an empty outgoing set,
otherwise copies the outgoing references, takes the next handle from the same
counter as atoms, default truth value `(1.0, 0.0)`, and prepends the link to
the `handle % LINK_TABLE_SIZE` bucket, incrementing `link_count`.  No check
relates the outgoing atoms to this store. -/
def atomspace_add_link (now : Nat) (as : atom_space) (t : link_type)
    (outgoing : List atom) : Option atom_link × atom_space :=
  if outgoing = [] then (none, as)
  else
    let l : atom_link :=
      { handle := as.next_handle, type := t, outgoing := outgoing,
        tv := default_tv, av := zero_av, created := now }
    let b := l.handle % LINK_TABLE_SIZE
    (some l,
     { as with
         next_handle := as.next_handle + 1,
         link_count := as.link_count + 1,
         link_table := fun j => if j = b then l :: as.link_table j else as.link_table j })

/-- `atom_set_tv` from `atomspace.c`, as the effect on the pointed-to atom. -/
def atom_set_tv (a : atom) (strength confidence : ℚ) : atom :=
  { a with tv := { strength := strength, confidence := confidence } }

/-- `atom_set_sti` from `atomspace.c`, as the effect on the pointed-to atom. -/
def atom_set_sti (a : atom) (sti : Int) : atom :=
  { a with av := { a.av with sti := sti } }

/-- `atom_set_lti` from `atomspace.c`, as the effect on the pointed-to atom. -/
def atom_set_lti (a : atom) (lti : Int) : atom :=
  { a with av := { a.av with lti := lti } }

/-- Replace the first occurrence of `old` in a bucket chain by `new` — the
state-passing image of mutating a C atom through a pointer into the chain. -/
def replaceFirst (old new : atom) : List atom → List atom
  | [] => []
  | a :: rest => if a = old then new :: rest else a :: replaceFirst old new rest

/-- Writing through a pointer to an atom owned by the store: the atom lives in
the bucket of its name hash, and its value is updated in place. -/
def update_atom_in (as : atom_space) (old new : atom) : atom_space :=
  let b := atom_hash old.name % ATOM_TABLE_SIZE
  { as with atom_table := fun j => if j = b then replaceFirst old new (as.atom_table j) else as.atom_table j }

/-- Concatenation of buckets `i, i+1, ..., i+fuel-1` of a table, in the order
the C loops `for (i = 0; i < atom_table_size; i++)` walk them. -/
def buckets_from (table : Nat → List atom) : Nat → Nat → List atom
  | _, 0 => []
  | i, fuel + 1 => table i ++ buckets_from table (i + 1) fuel

/-- All atoms of a store, in the bucket-scan order used by
`atomspace_save_binary`, `atomspace_export_json` and full synchronization. -/
def allAtoms (as : atom_space) : List atom :=
  buckets_from as.atom_table 0 ATOM_TABLE_SIZE

example :
    (atomspace_add_node 7 atomspace_create atom_type.ATOM_CONCEPT (some "x")).fst =
      some { handle := 1, type := atom_type.ATOM_CONCEPT, name := "x",
             tv := default_tv, av := zero_av,
             created := 7, last_accessed := 7, access_count := 0 } := by
  decide

example :
    ((atomspace_add_node 7 atomspace_create atom_type.ATOM_CONCEPT (some "x")).snd).atom_count = 1 := by
  decide


example :
    (allAtoms (atomspace_add_node 7 atomspace_create atom_type.ATOM_CONCEPT (some "x")).snd).length = 1 := by
  decide

/-! ## Persistence (`src/atomspace_persistence.c`) -/

def ATOMSPACE_FILE_MAGIC : Nat := 0x4154534D
def ATOMSPACE_FILE_VERSION : Nat := 1

/-- One complete on-disk atom record of the binary snapshot format: the packed
`struct atom_record` header followed by the `name_len` name bytes.  The
`name_len` field always equals the number of name bytes actually present
(`atomspace_save_binary` writes `strlen(name)` bytes right after the header,
and `atomspace_load_binary` reads exactly `name_len` bytes back), so it is
represented by `name.length`. -/
@[ext]
structure atom_record where
  handle : Nat
  type : atom_type
  name : String
  tv : truth_value
  av : attention_value
deriving DecidableEq

/-- `struct atomspace_file_header` of the binary snapshot format. -/
@[ext]
structure atomspace_file_header where
  magic : Nat
  version : Nat
  atom_count : Nat
  link_count : Nat
  created_time : Nat
  saved_time : Nat
deriving DecidableEq

/-- A binary snapshot stream: the header followed by the atom records that are
completely present in the stream.  A stream truncated inside record
`records.length` (either inside the packed header or inside the name bytes,
both of which make the corresponding `fread` fail) simply has
`records.length < header.atom_count`. -/
structure atomspace_file where
  header : atomspace_file_header
  records : List atom_record

/-- The record `atomspace_save_binary` writes for one atom. -/
def atom_to_record (a : atom) : atom_record :=
  { handle := a.handle, type := a.type, name := a.name, tv := a.tv, av := a.av }

/-- `atomspace_save_binary` from `atomspace_persistence.c`: writes a header
carrying the store's `atom_count` (and `link_count = 0`; links are never
persisted), then one record per atom in bucket-scan order. -/
def atomspace_save_binary (now : Nat) (as : atom_space) : atomspace_file :=
  { header :=
      { magic := ATOMSPACE_FILE_MAGIC, version := ATOMSPACE_FILE_VERSION,
        atom_count := as.atom_count, link_count := 0,
        created_time := now, saved_time := now },
    records := (allAtoms as).map atom_to_record }

/-- The atom produced by loading one record into a store where its
`(type, name)` pair is not yet present: `atomspace_add_node` creates the atom
(default truth value, zero attention, fresh handle), then the loader
overwrites `handle`, `tv` and `av` with the record's saved values. -/
def record_atom (now : Nat) (r : atom_record) : atom :=
  { handle := r.handle, type := r.type, name := r.name, tv := r.tv, av := r.av,
    created := now, last_accessed := now, access_count := 0 }

/-- One iteration of the load loop of `atomspace_load_binary`: a record with
`name_len == 0` passes `name = NULL` to `atomspace_add_node`, which returns
`NULL`, and the record's data is dropped; otherwise the atom is created (or
found, for a duplicate `(type, name)`) and its `handle`, `tv` and `av` fields
are overwritten in place with the saved values. -/
def load_record (now : Nat) (as : atom_space) (r : atom_record) : atom_space :=
  let nameOpt : Option String := if r.name.length = 0 then none else some r.name
  match atomspace_add_node now as r.type nameOpt with
  | (none, as') => as'
  | (some a, as') =>
      let a' := { a with handle := r.handle, tv := r.tv, av := r.av }
      let b := atom_hash a.name % ATOM_TABLE_SIZE
      { as' with
          atom_table := fun j =>
            if j = b then replaceFirst a a' (as'.atom_table j) else as'.atom_table j }

/-- `atomspace_load_binary` from `atomspace_persistence.c`: a header whose
magic or version mismatches aborts with no store; otherwise a fresh store is
populated by looping `header.atom_count` times, breaking (keeping what was
loaded so far) at the first record that is not completely present in the
stream. -/
def atomspace_load_binary (now : Nat) (f : atomspace_file) : Option atom_space :=
  if f.header.magic = ATOMSPACE_FILE_MAGIC ∧ f.header.version = ATOMSPACE_FILE_VERSION then
    some ((f.records.take f.header.atom_count).foldl (load_record now) atomspace_create)
  else
    none

/-! ## PLN revision (`src/pln_inference.c`) -/

/-- `struct pln_inference_context` from `pln_inference.h`, restricted to the
scalar fields (`pln_apply_revision` reads none of them beyond the `NULL`
check, which the value-level embedding discharges).  The `atomspace` pointer
and the inference counters play no role in the modelled operations. -/
structure pln_inference_context where
  confidence_threshold : ℚ
  strength_threshold : ℚ
  max_inference_depth : Nat
deriving DecidableEq

/-- `pln_context_create` from `pln_inference.c` (thresholds `0.1`, depth 5). -/
def pln_context_create : pln_inference_context :=
  { confidence_threshold := 1 / 10, strength_threshold := 1 / 10,
    max_inference_depth := 5 }

/-- `pln_apply_revision` from `pln_inference.c`:
`s = (s1*c1 + s2*c2) / (c1 + c2)` and `c = (c1 + c2) / (1 + c1*c2)` when
`c1 + c2 > 0`, else `(0.5, 0.0)`. -/
def pln_apply_revision (ctx : pln_inference_context) (tv1 tv2 : truth_value) :
    truth_value :=
  let c_sum := tv1.confidence + tv2.confidence
  if c_sum > 0 then
    { strength := (tv1.strength * tv1.confidence + tv2.strength * tv2.confidence) / c_sum,
      confidence := c_sum / (1 + tv1.confidence * tv2.confidence) }
  else
    { strength := 1 / 2, confidence := 0 }

/-! ## Distributed AtomSpace (`src/distributed_atomspace.c`)

The TCP layer is abstracted: `connect_to_node` is modelled as succeeding and
`send_atom` as transmitting (every statement below uses names far below the
64 KiB serialization buffer, so `serialize_atom` cannot fail either).  Only
the state visible through the manager — node registry, per-node bookkeeping
and the sync-state counters — is represented. -/

/-- `conflict_strategy` from `distributed_atomspace.h`. -/
inductive conflict_strategy where
  | CONFLICT_LATEST_WINS | CONFLICT_HIGHEST_CONFIDENCE
  | CONFLICT_MERGE_TV | CONFLICT_MANUAL
deriving DecidableEq

/-- `struct atomspace_sync_state` from `distributed_atomspace.h`. -/
@[ext]
structure atomspace_sync_state where
  atoms_sent : Nat
  atoms_received : Nat
  links_sent : Nat
  links_received : Nat
  conflicts_resolved : Nat
  last_full_sync : Nat
  last_incremental_sync : Nat
deriving DecidableEq

/-- `struct atomspace_node` from `distributed_atomspace.h` (the `hostname`
string, the per-node `remote_mirror` store — created empty and never read by
the modelled operations — and the `atoms_synced` field, which
`distributed_atomspace_connect` repurposes to hold the socket fd, are not
needed by any claim and are omitted). -/
@[ext]
structure atomspace_node where
  node_id : Nat
  port : Nat
  connected : Bool
  last_sync : Nat
deriving DecidableEq

/-- `struct distributed_atomspace` from `distributed_atomspace.h`.  The
`next_node_id` field models the `static uint64_t next_id = 1` counter inside
`distributed_atomspace_add_node` (one manager per process in this model). -/
structure distributed_atomspace where
  local_atomspace : atom_space
  nodes : List atomspace_node
  node_count : Nat
  conflict_resolution : conflict_strategy
  sync_state : atomspace_sync_state
  next_node_id : Nat

/-- `distributed_atomspace_create`: zeroed state, `CONFLICT_MERGE_TV` default
strategy, no registered nodes. -/
def distributed_atomspace_create (local_atomspace : atom_space) :
    distributed_atomspace :=
  { local_atomspace := local_atomspace, nodes := [], node_count := 0,
    conflict_resolution := conflict_strategy.CONFLICT_MERGE_TV,
    sync_state :=
      { atoms_sent := 0, atoms_received := 0, links_sent := 0,
        links_received := 0, conflicts_resolved := 0,
        last_full_sync := 0, last_incremental_sync := 0 },
    next_node_id := 1 }

/-- `distributed_atomspace_add_node`: registers a disconnected participant
with the next id from the monotonic counter, prepending it to the node list.
Returns the assigned node id. -/
def distributed_atomspace_add_node (das : distributed_atomspace) (port : Nat) :
    Nat × distributed_atomspace :=
  let node : atomspace_node :=
    { node_id := das.next_node_id, port := port, connected := false, last_sync := 0 }
  (node.node_id,
   { das with nodes := node :: das.nodes, node_count := das.node_count + 1,
              next_node_id := das.next_node_id + 1 })

/-- `distributed_atomspace_connect`, success path (`connect_to_node` reaching
the remote): the node with the given id is marked connected.  An unknown id
fails and changes nothing. -/
def distributed_atomspace_connect (das : distributed_atomspace) (node_id : Nat) :
    Int × distributed_atomspace :=
  if (das.nodes.filter (fun n => n.node_id = node_id)).isEmpty then
    (-1, das)
  else
    (0, { das with
            nodes := das.nodes.map (fun n =>
              if n.node_id = node_id then { n with connected := true } else n) })

/-- Number of atoms `distributed_atomspace_sync_full` pushes to one connected
node: one successful `send_atom` per atom of the local store, in bucket-scan
order.  (The attention-queue pass that follows sends nothing and counts
nothing: the queue is all-`NULL`, and even a non-empty entry would not be
counted, since that loop does not touch `synced`.) -/
def atoms_to_send (as : atom_space) : Nat := (allAtoms as).length

/-- The node-list walk of `distributed_atomspace_sync_full`, with the loop's
state (`synced` accumulator and the manager's `sync_state`) threaded through.
Note `synced` is shared by all iterations — the source never resets it
between nodes — and `sync_state.atoms_sent += synced` runs once per matched
connected node. -/
def sync_full_walk (now : Nat) (store : atom_space) (node_id : Nat) :
    List atomspace_node → Nat → atomspace_sync_state →
    Nat × List atomspace_node × atomspace_sync_state
  | [], synced, st => (synced, [], st)
  | node :: rest, synced, st =>
    if node_id = 0 ∨ node.node_id = node_id then
      if node.connected then
        let synced' := synced + atoms_to_send store
        let node' := { node with last_sync := now }
        let st' := { st with atoms_sent := st.atoms_sent + synced',
                             last_full_sync := now }
        if node_id ≠ 0 then
          (synced', node' :: rest, st')
        else
          let r := sync_full_walk now store node_id rest synced' st'
          (r.1, node' :: r.2.1, r.2.2)
      else
        let r := sync_full_walk now store node_id rest synced st
        (r.1, node :: r.2.1, r.2.2)
    else
      let r := sync_full_walk now store node_id rest synced st
      (r.1, node :: r.2.1, r.2.2)

/-- `distributed_atomspace_sync_full`: sends every local atom (then the
attention queue, which is empty) to each connected target — every node when
`node_id = 0`, else the node with that id — and returns the `synced` count. -/
def distributed_atomspace_sync_full (now : Nat) (das : distributed_atomspace)
    (node_id : Nat) : Nat × distributed_atomspace :=
  let r := sync_full_walk now das.local_atomspace node_id das.nodes 0 das.sync_state
  (r.1, { das with nodes := r.2.1, sync_state := r.2.2 })

/-- `distributed_atomspace_get_sync_state`: snapshot of the counters. -/
def distributed_atomspace_get_sync_state (das : distributed_atomspace) :
    atomspace_sync_state :=
  das.sync_state

/-- `distributed_atomspace_set_conflict_strategy`. -/
def distributed_atomspace_set_conflict_strategy (das : distributed_atomspace)
    (strategy : conflict_strategy) : distributed_atomspace :=
  { das with conflict_resolution := strategy }

/-- `distributed_atomspace_resolve_conflict` for non-`NULL` arguments:
dispatches on the configured strategy.  The returned atom is the pointer the
C function returns (for `CONFLICT_MERGE_TV`, the local atom after its truth
value was overwritten in place with the PLN revision of the two truth
values); the manager comes back with `conflicts_resolved` incremented in the
merge case. -/
def distributed_atomspace_resolve_conflict (das : distributed_atomspace)
    (local_atom remote_atom : atom) : atom × distributed_atomspace :=
  match das.conflict_resolution with
  | conflict_strategy.CONFLICT_LATEST_WINS =>
      (if local_atom.last_accessed > remote_atom.last_accessed
       then local_atom else remote_atom, das)
  | conflict_strategy.CONFLICT_HIGHEST_CONFIDENCE =>
      (if local_atom.tv.confidence > remote_atom.tv.confidence
       then local_atom else remote_atom, das)
  | conflict_strategy.CONFLICT_MERGE_TV =>
      let merged := pln_apply_revision pln_context_create local_atom.tv remote_atom.tv
      ({ local_atom with tv := merged },
       { das with
           sync_state :=
             { das.sync_state with
                 conflicts_resolved := das.sync_state.conflicts_resolved + 1 } })
  | conflict_strategy.CONFLICT_MANUAL => (local_atom, das)

/-! ## List-level facts about the bucket scans -/

theorem string_length_ne_zero {s : String} (h : s ≠ "") : s.length ≠ 0 := by
  intro h0
  apply h
  cases s with
  | mk data =>
    have hd : data = [] := List.length_eq_zero.mp h0
    simp [hd]

/-- Key under which `atomspace_find_node` deduplicates atoms. -/
def atom_key (a : atom) : atom_type × String := (a.type, a.name)

/-- Key of an on-disk record. -/
def record_key (r : atom_record) : atom_type × String := (r.type, r.name)

theorem touch_atom_key (now : Nat) (a : atom) :
    atom_key (touch_atom now a) = atom_key a := rfl

theorem find_touch_eq_none_iff (now : Nat) (t : atom_type) (n : String) :
    ∀ l : List atom,
      find_touch now t n l = none ↔ ∀ x ∈ l, ¬(x.type = t ∧ x.name = n) := by
  intro l
  induction l with
  | nil => simp [find_touch]
  | cons a rest ih =>
    by_cases hm : a.type = t ∧ a.name = n
    · simp [find_touch, hm]
    · rw [find_touch, if_neg hm]
      cases hr : find_touch now t n rest with
      | none =>
        simp only [List.mem_cons]
        constructor
        · intro _ x hx
          rcases hx with hx | hx
          · subst hx; exact hm
          · exact (ih.mp hr) x hx
        · intro _; trivial
      | some p =>
        rcases p with ⟨found, rest'⟩
        simp only [List.mem_cons]
        constructor
        · intro hcontra; cases hcontra
        · intro hall
          exfalso
          have : find_touch now t n rest = none := by
            exact ih.mpr (fun x hx => hall x (Or.inr hx))
          rw [this] at hr; cases hr

theorem find_touch_of_split (now : Nat) (t : atom_type) (n : String) :
    ∀ (l1 : List atom) (a0 : atom) (l2 : List atom),
      (∀ x ∈ l1, ¬(x.type = t ∧ x.name = n)) →
      a0.type = t → a0.name = n →
      find_touch now t n (l1 ++ a0 :: l2) =
        some (touch_atom now a0, l1 ++ touch_atom now a0 :: l2) := by
  intro l1
  induction l1 with
  | nil =>
    intro a0 l2 _ ht hn
    simp [find_touch, ht, hn]
  | cons x l1' ih =>
    intro a0 l2 hmiss ht hn
    have hx : ¬(x.type = t ∧ x.name = n) := hmiss x (List.mem_cons_self x l1')
    have hrest : ∀ y ∈ l1', ¬(y.type = t ∧ y.name = n) :=
      fun y hy => hmiss y (List.mem_cons_of_mem x hy)
    rw [List.cons_append, find_touch, if_neg hx, ih a0 l2 hrest ht hn]
    simp

theorem find_touch_eq_some (now : Nat) (t : atom_type) (n : String) :
    ∀ (l : List atom) (a : atom) (l' : List atom),
      find_touch now t n l = some (a, l') →
      ∃ l1 a0 l2,
        l = l1 ++ a0 :: l2 ∧
        (∀ x ∈ l1, ¬(x.type = t ∧ x.name = n)) ∧
        a0.type = t ∧ a0.name = n ∧
        a = touch_atom now a0 ∧ l' = l1 ++ touch_atom now a0 :: l2 := by
  intro l
  induction l with
  | nil => intro a l' h; cases h
  | cons x rest ih =>
    intro a l' h
    by_cases hm : x.type = t ∧ x.name = n
    · rw [find_touch, if_pos hm] at h
      injection h with h
      injection h with h1 h2
      exact ⟨[], x, rest, by simp, by simp, hm.1, hm.2, h1.symm, by simp [h2.symm]⟩
    · rw [find_touch, if_neg hm] at h
      cases hr : find_touch now t n rest with
      | none => rw [hr] at h; cases h
      | some p =>
        rcases p with ⟨found, rest'⟩
        rw [hr] at h
        injection h with h
        injection h with h1 h2
        rcases ih found rest' hr with ⟨l1, a0, l2, heq, hmiss, ht, hn, ha, hl⟩
        refine ⟨x :: l1, a0, l2, by simp [heq], ?_, ht, hn, by rw [← h1, ha], ?_⟩
        · intro y hy
          rcases List.mem_cons.mp hy with hy | hy
          · subst hy; exact hm
          · exact hmiss y hy
        · rw [← h2, hl]; simp

theorem replaceFirst_of_not_mem {old : atom} (new : atom) :
    ∀ l : List atom, old ∉ l → replaceFirst old new l = l := by
  intro l
  induction l with
  | nil => intro _; rfl
  | cons x rest ih =>
    intro h
    have hx : x ≠ old := fun he => h (he ▸ List.mem_cons_self x rest)
    rw [replaceFirst, if_neg hx, ih (fun hm => h (List.mem_cons_of_mem x hm))]

theorem buckets_from_congr (f g : Nat → List atom) :
    ∀ (fuel i : Nat), (∀ j, i ≤ j → j < i + fuel → f j = g j) →
      buckets_from f i fuel = buckets_from g i fuel := by
  intro fuel
  induction fuel with
  | zero => intro i _; rfl
  | succ fuel ih =>
    intro i h
    rw [buckets_from, buckets_from, h i (Nat.le_refl i) (by omega),
        ih (i + 1) (fun j h1 h2 => h j (by omega) (by omega))]

theorem mem_buckets_from (f : Nat → List atom) (x : atom) :
    ∀ (fuel i : Nat),
      x ∈ buckets_from f i fuel ↔ ∃ j, i ≤ j ∧ j < i + fuel ∧ x ∈ f j := by
  intro fuel
  induction fuel with
  | zero =>
    intro i
    constructor
    · intro h; cases h
    · rintro ⟨j, h1, h2, _⟩; omega
  | succ fuel ih =>
    intro i
    rw [buckets_from, List.mem_append, ih (i + 1)]
    constructor
    · rintro (h | ⟨j, h1, h2, h3⟩)
      · exact ⟨i, Nat.le_refl i, by omega, h⟩
      · exact ⟨j, by omega, by omega, h3⟩
    · rintro ⟨j, h1, h2, h3⟩
      by_cases hj : j = i
      · subst hj; exact Or.inl h3
      · exact Or.inr ⟨j, by omega, by omega, h3⟩

theorem buckets_from_update (f : Nat → List atom) (b : Nat) (L : List atom) :
    ∀ (fuel i : Nat), i ≤ b → b < i + fuel →
      ∃ pre post,
        buckets_from f i fuel = pre ++ f b ++ post ∧
        buckets_from (fun j => if j = b then L else f j) i fuel = pre ++ L ++ post := by
  intro fuel
  induction fuel with
  | zero => intro i h1 h2; omega
  | succ fuel ih =>
    intro i h1 h2
    by_cases hib : i = b
    · subst hib
      refine ⟨[], buckets_from f (i + 1) fuel, ?_, ?_⟩
      · simp [buckets_from]
      · have hcongr :
            buckets_from (fun j => if j = i then L else f j) (i + 1) fuel =
              buckets_from f (i + 1) fuel := by
          apply buckets_from_congr
          intro j hj _
          have : j ≠ i := by omega
          simp [this]
        simp [buckets_from, hcongr]
    · have hb1 : i + 1 ≤ b := by omega
      rcases ih (i + 1) hb1 (by omega) with ⟨pre, post, hf, hg⟩
      refine ⟨f i ++ pre, post, ?_, ?_⟩
      · simp [buckets_from, hf]
      · have : i ≠ b := hib
        simp [buckets_from, this, hg]

theorem buckets_from_nil :
    ∀ (fuel i : Nat), buckets_from (fun _ => []) i fuel = [] := by
  intro fuel
  induction fuel with
  | zero => intro i; rfl
  | succ fuel ih => intro i; rw [buckets_from, ih]; rfl

theorem allAtoms_create : allAtoms atomspace_create = [] := by
  unfold allAtoms atomspace_create
  exact buckets_from_nil ATOM_TABLE_SIZE 0

theorem mem_allAtoms (as : atom_space) (x : atom) :
    x ∈ allAtoms as ↔ ∃ j, j < ATOM_TABLE_SIZE ∧ x ∈ as.atom_table j := by
  unfold allAtoms
  rw [mem_buckets_from]
  constructor
  · rintro ⟨j, _, h2, h3⟩; exact ⟨j, by omega, h3⟩
  · rintro ⟨j, h1, h2⟩; exact ⟨j, Nat.zero_le j, by omega, h2⟩

/-! ## Characterizations of the store operations -/

/-- Store with one bucket overwritten. -/
def set_bucket (as : atom_space) (b : Nat) (L : List atom) : atom_space :=
  { as with atom_table := fun j => if j = b then L else as.atom_table j }

/-- The atom `atomspace_add_node` allocates when the `(type, name)` pair is
not present. -/
def fresh_atom (now : Nat) (as : atom_space) (t : atom_type) (n : String) : atom :=
  { handle := as.next_handle, type := t, name := n, tv := default_tv, av := zero_av,
    created := now, last_accessed := now, access_count := 0 }

/-- Store with one atom pushed onto its name-hash bucket and the counters
advanced the way `atomspace_add_node` advances them. -/
def prepend_atom (as : atom_space) (a : atom) : atom_space :=
  { as with
      next_handle := as.next_handle + 1,
      atom_count := as.atom_count + 1,
      atom_table := fun j =>
        if j = atom_hash a.name % ATOM_TABLE_SIZE then a :: as.atom_table j
        else as.atom_table j }

theorem ATOM_TABLE_SIZE_pos : 0 < ATOM_TABLE_SIZE := by decide

theorem bucket_lt (n : String) : atom_hash n % ATOM_TABLE_SIZE < ATOM_TABLE_SIZE :=
  Nat.mod_lt _ ATOM_TABLE_SIZE_pos

theorem atomspace_find_node_of_none {now : Nat} {as : atom_space} {t : atom_type}
    {n : String}
    (h : find_touch now t n (as.atom_table (atom_hash n % ATOM_TABLE_SIZE)) = none) :
    atomspace_find_node now as t n = (none, as) := by
  unfold atomspace_find_node
  simp only [h]

theorem atomspace_find_node_of_some {now : Nat} {as : atom_space} {t : atom_type}
    {n : String} {a : atom} {l' : List atom}
    (h : find_touch now t n (as.atom_table (atom_hash n % ATOM_TABLE_SIZE)) = some (a, l')) :
    atomspace_find_node now as t n =
      (some a, set_bucket as (atom_hash n % ATOM_TABLE_SIZE) l') := by
  unfold atomspace_find_node
  simp only [h]
  rfl

theorem atomspace_add_node_miss {now : Nat} {as : atom_space} {t : atom_type}
    {n : String}
    (h : find_touch now t n (as.atom_table (atom_hash n % ATOM_TABLE_SIZE)) = none) :
    atomspace_add_node now as t (some n) =
      (some (fresh_atom now as t n), prepend_atom as (fresh_atom now as t n)) := by
  simp only [atomspace_add_node, atomspace_find_node_of_none h]
  rfl

theorem atomspace_add_node_hit {now : Nat} {as : atom_space} {t : atom_type}
    {n : String} {a : atom} {l' : List atom}
    (h : find_touch now t n (as.atom_table (atom_hash n % ATOM_TABLE_SIZE)) = some (a, l')) :
    atomspace_add_node now as t (some n) =
      (some a, set_bucket as (atom_hash n % ATOM_TABLE_SIZE) l') := by
  simp only [atomspace_add_node, atomspace_find_node_of_some h]

theorem set_bucket_self (as : atom_space) (b : Nat) :
    set_bucket as b (as.atom_table b) = as := by
  ext j x
  · unfold set_bucket
    by_cases hj : j = b
    · subst hj; simp
    · simp [hj]
  all_goals rfl

theorem allAtoms_set_bucket (as : atom_space) (b : Nat) (L : List atom)
    (hb : b < ATOM_TABLE_SIZE) :
    ∃ pre post,
      allAtoms as = pre ++ as.atom_table b ++ post ∧
      allAtoms (set_bucket as b L) = pre ++ L ++ post :=
  buckets_from_update as.atom_table b L ATOM_TABLE_SIZE 0 (Nat.zero_le b) (by omega)

theorem allAtoms_prepend_decomp (as : atom_space) (a : atom) :
    ∃ pre post,
      allAtoms as = pre ++ as.atom_table (atom_hash a.name % ATOM_TABLE_SIZE) ++ post ∧
      allAtoms (prepend_atom as a) =
        pre ++ (a :: as.atom_table (atom_hash a.name % ATOM_TABLE_SIZE)) ++ post := by
  obtain ⟨pre, post, h1, h2⟩ :=
    allAtoms_set_bucket as (atom_hash a.name % ATOM_TABLE_SIZE)
      (a :: as.atom_table (atom_hash a.name % ATOM_TABLE_SIZE)) (bucket_lt a.name)
  refine ⟨pre, post, h1, ?_⟩
  rw [← h2]
  unfold allAtoms
  apply buckets_from_congr
  intro j _ _
  by_cases hj : j = atom_hash a.name % ATOM_TABLE_SIZE
  · subst hj; simp [prepend_atom, set_bucket]
  · simp [prepend_atom, set_bucket, hj]

theorem mem_allAtoms_prepend (as : atom_space) (a x : atom) :
    x ∈ allAtoms (prepend_atom as a) ↔ x = a ∨ x ∈ allAtoms as := by
  obtain ⟨pre, post, h1, h2⟩ := allAtoms_prepend_decomp as a
  rw [h1, h2]
  simp only [List.mem_append, List.mem_cons]
  tauto

theorem length_allAtoms_prepend (as : atom_space) (a : atom) :
    (allAtoms (prepend_atom as a)).length = (allAtoms as).length + 1 := by
  obtain ⟨pre, post, h1, h2⟩ := allAtoms_prepend_decomp as a
  rw [h1, h2]
  simp only [List.length_append, List.length_cons]
  omega

/-! ## Store well-formedness and reachability -/

/-- Invariants every store built through the AtomStore factory operations
satisfies: the running `atom_count` agrees with the table contents, no two
atoms share a `(type, name)` key, and every atom sits in the bucket of its
name hash. -/
structure StoreWF (as : atom_space) : Prop where
  count_eq : as.atom_count = (allAtoms as).length
  keys_nodup : ((allAtoms as).map atom_key).Nodup
  bucket_ok : ∀ j, ∀ a ∈ as.atom_table j, atom_hash a.name % ATOM_TABLE_SIZE = j

theorem storeWF_create : StoreWF atomspace_create := by
  constructor
  · rw [allAtoms_create]; rfl
  · rw [allAtoms_create]; exact List.nodup_nil
  · intro j a ha; cases ha

theorem find_touch_none_global {as : atom_space} (h : StoreWF as)
    {now : Nat} {t : atom_type} {n : String}
    (hmiss : find_touch now t n (as.atom_table (atom_hash n % ATOM_TABLE_SIZE)) = none) :
    ∀ x ∈ allAtoms as, atom_key x ≠ (t, n) := by
  intro x hx hkey
  have ht : x.type = t := congrArg Prod.fst hkey
  have hn : x.name = n := congrArg Prod.snd hkey
  obtain ⟨j, _, hxj⟩ := (mem_allAtoms as x).mp hx
  have hb := h.bucket_ok j x hxj
  rw [hn] at hb
  rw [← hb] at hxj
  exact ((find_touch_eq_none_iff now t n _).mp hmiss) x hxj ⟨ht, hn⟩

theorem StoreWF.prepend {as : atom_space} (h : StoreWF as) (a : atom)
    (hnew : ∀ x ∈ allAtoms as, atom_key x ≠ atom_key a) :
    StoreWF (prepend_atom as a) := by
  obtain ⟨pre, post, h1, h2⟩ := allAtoms_prepend_decomp as a
  constructor
  · show as.atom_count + 1 = _
    rw [h2, h.count_eq, h1]
    simp only [List.length_append, List.length_cons]
    omega
  · rw [h2]
    have hperm :
        (pre ++ (a :: as.atom_table (atom_hash a.name % ATOM_TABLE_SIZE)) ++ post).Perm
          (a :: (pre ++ (as.atom_table (atom_hash a.name % ATOM_TABLE_SIZE) ++ post))) := by
      have h0 :
          pre ++ (a :: as.atom_table (atom_hash a.name % ATOM_TABLE_SIZE)) ++ post =
            pre ++ a :: (as.atom_table (atom_hash a.name % ATOM_TABLE_SIZE) ++ post) := by
        simp [List.append_assoc]
      rw [h0]
      exact List.perm_middle
    refine (List.Perm.nodup_iff (hperm.map atom_key)).mpr ?_
    rw [List.map_cons]
    refine List.nodup_cons.mpr ⟨?_, ?_⟩
    · intro hmem
      obtain ⟨x, hx, hxk⟩ := List.mem_map.mp hmem
      refine hnew x ?_ hxk
      rw [h1]
      simp only [List.append_assoc]
      exact hx
    · have hold := h.keys_nodup
      rw [h1] at hold
      simpa [List.append_assoc] using hold
  · intro j x hx
    have hx' : x ∈ (if j = atom_hash a.name % ATOM_TABLE_SIZE
        then a :: as.atom_table j else as.atom_table j) := hx
    by_cases hj : j = atom_hash a.name % ATOM_TABLE_SIZE
    · rw [if_pos hj] at hx'
      rcases List.mem_cons.mp hx' with hxa | hxm
      · subst hxa; rw [hj]
      · exact h.bucket_ok j x hxm
    · rw [if_neg hj] at hx'
      exact h.bucket_ok j x hx'

theorem StoreWF.set_bucket_replace {as : atom_space} (h : StoreWF as) {b : Nat}
    (hb : b < ATOM_TABLE_SIZE) {l1 l2 : List atom} {a0 a' : atom}
    (hsplit : as.atom_table b = l1 ++ a0 :: l2)
    (hkey : atom_key a' = atom_key a0) :
    StoreWF (set_bucket as b (l1 ++ a' :: l2)) := by
  obtain ⟨pre, post, h1, h2⟩ := allAtoms_set_bucket as b (l1 ++ a' :: l2) hb
  rw [hsplit] at h1
  have hmapeq :
      (allAtoms (set_bucket as b (l1 ++ a' :: l2))).map atom_key =
        (allAtoms as).map atom_key := by
    rw [h1, h2]
    simp only [List.map_append, List.map_cons, hkey]
  constructor
  · show as.atom_count = _
    have hlen := congrArg List.length hmapeq
    simp only [List.length_map] at hlen
    rw [h.count_eq, hlen]
  · rw [hmapeq]
    exact h.keys_nodup
  · intro j x hx
    have hx' : x ∈ (if j = b then l1 ++ a' :: l2 else as.atom_table j) := hx
    by_cases hj : j = b
    · rw [if_pos hj] at hx'
      subst hj
      rcases List.mem_append.mp hx' with hxl | hxr
      · exact h.bucket_ok j x (by rw [hsplit]; exact List.mem_append_left _ hxl)
      · rcases List.mem_cons.mp hxr with hxa | hx2
        · subst hxa
          have hname : x.name = a0.name := congrArg Prod.snd hkey
          rw [hname]
          exact h.bucket_ok j a0
            (by rw [hsplit]; exact List.mem_append_right _ (List.mem_cons_self _ _))
        · exact h.bucket_ok j x
            (by rw [hsplit]; exact List.mem_append_right _ (List.mem_cons_of_mem _ hx2))
    · rw [if_neg hj] at hx'
      exact h.bucket_ok j x hx'

theorem replaceFirst_split (old new : atom) :
    ∀ l : List atom, old ∈ l →
      ∃ l1 l2, l = l1 ++ old :: l2 ∧ old ∉ l1 ∧
        replaceFirst old new l = l1 ++ new :: l2 := by
  intro l
  induction l with
  | nil => intro h; cases h
  | cons x rest ih =>
    intro h
    by_cases hx : x = old
    · subst hx
      exact ⟨[], rest, rfl, List.not_mem_nil _, by rw [replaceFirst, if_pos rfl]; rfl⟩
    · have hmem : old ∈ rest := by
        rcases List.mem_cons.mp h with h1 | h1
        · exact absurd h1.symm hx
        · exact h1
      obtain ⟨l1, l2, he, hni, hr⟩ := ih hmem
      refine ⟨x :: l1, l2, by rw [he]; rfl, ?_, ?_⟩
      · intro hc
        rcases List.mem_cons.mp hc with h1 | h1
        · exact hx h1.symm
        · exact hni h1
      · rw [replaceFirst, if_neg hx, hr]
        rfl

theorem update_atom_in_eq (as : atom_space) (a a' : atom) :
    update_atom_in as a a' =
      set_bucket as (atom_hash a.name % ATOM_TABLE_SIZE)
        (replaceFirst a a' (as.atom_table (atom_hash a.name % ATOM_TABLE_SIZE))) := by
  have hfun : (fun j => if j = atom_hash a.name % ATOM_TABLE_SIZE
        then replaceFirst a a' (as.atom_table j) else as.atom_table j) =
      (fun j => if j = atom_hash a.name % ATOM_TABLE_SIZE
        then replaceFirst a a' (as.atom_table (atom_hash a.name % ATOM_TABLE_SIZE))
        else as.atom_table j) := by
    funext j
    by_cases hj : j = atom_hash a.name % ATOM_TABLE_SIZE
    · rw [if_pos hj, if_pos hj, hj]
    · rw [if_neg hj, if_neg hj]
  show ({ as with atom_table := fun j => if j = atom_hash a.name % ATOM_TABLE_SIZE
        then replaceFirst a a' (as.atom_table j) else as.atom_table j } : atom_space) = _
  rw [hfun]
  rfl

theorem StoreWF.update_atom {as : atom_space} (h : StoreWF as) (a a' : atom)
    (hkey : atom_key a' = atom_key a) :
    StoreWF (update_atom_in as a a') := by
  rw [update_atom_in_eq]
  by_cases hmem : a ∈ as.atom_table (atom_hash a.name % ATOM_TABLE_SIZE)
  · obtain ⟨l1, l2, he, _, hr⟩ := replaceFirst_split a a' _ hmem
    rw [hr]
    exact h.set_bucket_replace (bucket_lt a.name) he hkey
  · rw [replaceFirst_of_not_mem a' _ hmem, set_bucket_self]
    exact h

theorem StoreWF.find_node {as : atom_space} (h : StoreWF as) (now : Nat)
    (t : atom_type) (n : String) :
    StoreWF (atomspace_find_node now as t n).snd := by
  cases hft : find_touch now t n (as.atom_table (atom_hash n % ATOM_TABLE_SIZE)) with
  | none => rw [atomspace_find_node_of_none hft]; exact h
  | some p =>
    rcases p with ⟨a, l'⟩
    rw [atomspace_find_node_of_some hft]
    obtain ⟨l1, a0, l2, he, _, _, _, _, hl⟩ := find_touch_eq_some now t n _ a l' hft
    rw [hl]
    exact h.set_bucket_replace (bucket_lt n) he rfl

theorem StoreWF.add_node {as : atom_space} (h : StoreWF as) (now : Nat)
    (t : atom_type) (name : Option String) :
    StoreWF (atomspace_add_node now as t name).snd := by
  cases name with
  | none => exact h
  | some n =>
    cases hft : find_touch now t n (as.atom_table (atom_hash n % ATOM_TABLE_SIZE)) with
    | none =>
      rw [atomspace_add_node_miss hft]
      refine h.prepend _ ?_
      intro x hx
      exact find_touch_none_global h hft x hx
    | some p =>
      rcases p with ⟨a, l'⟩
      rw [atomspace_add_node_hit hft]
      obtain ⟨l1, a0, l2, he, _, _, _, _, hl⟩ := find_touch_eq_some now t n _ a l' hft
      rw [hl]
      exact h.set_bucket_replace (bucket_lt n) he rfl

theorem StoreWF.add_link {as : atom_space} (h : StoreWF as) (now : Nat)
    (t : link_type) (outs : List atom) :
    StoreWF (atomspace_add_link now as t outs).snd := by
  by_cases ho : outs = []
  · rw [atomspace_add_link, if_pos ho]
    exact h
  · rw [atomspace_add_link, if_neg ho]
    exact ⟨h.count_eq, h.keys_nodup, h.bucket_ok⟩

/-- Stores built through the AtomStore factory operations of `atomspace.c`:
creation, node insertion, link insertion, lookup (which touches access
metadata in place), the truth/attention setters applied through a pointer to
a store atom, and the access-metadata touch that `atomspace_get_atom`
performs on a hit. -/
inductive Reachable : atom_space → Prop where
  | create : Reachable atomspace_create
  | add_node (now : Nat) (t : atom_type) (n : Option String) {as : atom_space} :
      Reachable as → Reachable (atomspace_add_node now as t n).snd
  | add_link (now : Nat) (t : link_type) (outs : List atom) {as : atom_space} :
      Reachable as → Reachable (atomspace_add_link now as t outs).snd
  | find_node (now : Nat) (t : atom_type) (n : String) {as : atom_space} :
      Reachable as → Reachable (atomspace_find_node now as t n).snd
  | set_tv (a : atom) (s c : ℚ) {as : atom_space} :
      Reachable as → Reachable (update_atom_in as a (atom_set_tv a s c))
  | set_sti (a : atom) (v : Int) {as : atom_space} :
      Reachable as → Reachable (update_atom_in as a (atom_set_sti a v))
  | set_lti (a : atom) (v : Int) {as : atom_space} :
      Reachable as → Reachable (update_atom_in as a (atom_set_lti a v))
  | touch (now : Nat) (a : atom) {as : atom_space} :
      Reachable as → Reachable (update_atom_in as a (touch_atom now a))

theorem Reachable.wf : ∀ {as : atom_space}, Reachable as → StoreWF as := by
  intro as h
  induction h with
  | create => exact storeWF_create
  | add_node now t n _ ih => exact ih.add_node now t n
  | add_link now t outs _ ih => exact ih.add_link now t outs
  | find_node now t n _ ih => exact ih.find_node now t n
  | set_tv a s c _ ih => exact ih.update_atom _ _ rfl
  | set_sti a v _ ih => exact ih.update_atom _ _ rfl
  | set_lti a v _ ih => exact ih.update_atom _ _ rfl
  | touch now a _ ih => exact ih.update_atom _ _ rfl

/-! ## Loading a snapshot record by record -/

theorem load_record_fresh (now : Nat) (as : atom_space) (r : atom_record)
    (hname : r.name ≠ "")
    (hmiss : find_touch now r.type r.name
        (as.atom_table (atom_hash r.name % ATOM_TABLE_SIZE)) = none) :
    load_record now as r = prepend_atom as (record_atom now r) := by
  have h0 : ¬(r.name.length = 0) := string_length_ne_zero hname
  simp only [load_record, if_neg h0, atomspace_add_node_miss hmiss]
  refine atom_space.ext ?_ rfl rfl rfl rfl rfl
  funext j
  show (if j = atom_hash r.name % ATOM_TABLE_SIZE
        then replaceFirst (fresh_atom now as r.type r.name) (record_atom now r)
               ((prepend_atom as (fresh_atom now as r.type r.name)).atom_table j)
        else (prepend_atom as (fresh_atom now as r.type r.name)).atom_table j) =
       (prepend_atom as (record_atom now r)).atom_table j
  by_cases hj : j = atom_hash r.name % ATOM_TABLE_SIZE
  · rw [if_pos hj]
    show replaceFirst (fresh_atom now as r.type r.name) (record_atom now r)
          (if j = atom_hash r.name % ATOM_TABLE_SIZE
           then fresh_atom now as r.type r.name :: as.atom_table j else as.atom_table j) =
         (if j = atom_hash r.name % ATOM_TABLE_SIZE
          then record_atom now r :: as.atom_table j else as.atom_table j)
    rw [if_pos hj, if_pos hj, replaceFirst, if_pos rfl]
  · rw [if_neg hj]
    show (if j = atom_hash r.name % ATOM_TABLE_SIZE
          then fresh_atom now as r.type r.name :: as.atom_table j else as.atom_table j) =
         (if j = atom_hash r.name % ATOM_TABLE_SIZE
          then record_atom now r :: as.atom_table j else as.atom_table j)
    rw [if_neg hj, if_neg hj]

theorem load_fold (now : Nat) :
    ∀ (recs : List atom_record) (as : atom_space),
      (∀ r ∈ recs, r.name ≠ "") →
      (recs.map record_key).Nodup →
      (∀ r ∈ recs, ∀ x ∈ allAtoms as, atom_key x ≠ record_key r) →
      (recs.foldl (load_record now) as).atom_count = as.atom_count + recs.length ∧
      (recs.foldl (load_record now) as).next_handle = as.next_handle + recs.length ∧
      (∀ x, x ∈ allAtoms (recs.foldl (load_record now) as) ↔
        x ∈ allAtoms as ∨ ∃ r ∈ recs, x = record_atom now r) := by
  intro recs
  induction recs with
  | nil =>
    intro as _ _ _
    refine ⟨rfl, rfl, ?_⟩
    simp
  | cons r rest ih =>
    intro as hnames hnodup hfresh
    rw [List.map_cons, List.nodup_cons] at hnodup
    obtain ⟨hkey_head, hnodup'⟩ := hnodup
    have hmiss : find_touch now r.type r.name
        (as.atom_table (atom_hash r.name % ATOM_TABLE_SIZE)) = none := by
      rw [find_touch_eq_none_iff]
      intro x hx hmatch
      have hxall : x ∈ allAtoms as :=
        (mem_allAtoms as x).mpr ⟨_, bucket_lt r.name, hx⟩
      refine hfresh r (List.mem_cons_self r rest) x hxall ?_
      show (x.type, x.name) = (r.type, r.name)
      rw [hmatch.1, hmatch.2]
    have hstep : load_record now as r = prepend_atom as (record_atom now r) :=
      load_record_fresh now as r (hnames r (List.mem_cons_self r rest)) hmiss
    have hnames' : ∀ r' ∈ rest, r'.name ≠ "" :=
      fun r' h' => hnames r' (List.mem_cons_of_mem r h')
    have hfresh' : ∀ r' ∈ rest,
        ∀ x ∈ allAtoms (prepend_atom as (record_atom now r)), atom_key x ≠ record_key r' := by
      intro r' hr' x hxP
      rcases (mem_allAtoms_prepend as (record_atom now r) x).mp hxP with hxa | hxold
      · subst hxa
        intro hcontra
        apply hkey_head
        have hkeq : record_key r = record_key r' := hcontra
        rw [hkeq]
        exact List.mem_map.mpr ⟨r', hr', rfl⟩
      · exact hfresh r' (List.mem_cons_of_mem r hr') x hxold
    obtain ⟨hc, hh, hm⟩ := ih (prepend_atom as (record_atom now r)) hnames' hnodup' hfresh'
    rw [List.foldl_cons, hstep]
    refine ⟨?_, ?_, ?_⟩
    · rw [hc]
      show as.atom_count + 1 + rest.length = as.atom_count + (rest.length + 1)
      omega
    · rw [hh]
      show as.next_handle + 1 + rest.length = as.next_handle + (rest.length + 1)
      omega
    · intro x
      rw [hm x, mem_allAtoms_prepend]
      constructor
      · rintro ((hxa | hxold) | ⟨r', hr', hx⟩)
        · exact Or.inr ⟨r, List.mem_cons_self r rest, hxa⟩
        · exact Or.inl hxold
        · exact Or.inr ⟨r', List.mem_cons_of_mem r hr', hx⟩
      · rintro (hxold | ⟨r', hr', hx⟩)
        · exact Or.inl (Or.inr hxold)
        · rcases List.mem_cons.mp hr' with h1 | h1
          · subst h1; exact Or.inl (Or.inl hx)
          · exact Or.inr ⟨r', h1, hx⟩

/-! ## Interleaved creation sequences (handle allocation) -/

/-- One AtomStore creation attempt: an `atomspace_add_node` call (which
creates a new atom only when the `(type, name)` pair is fresh — a dedup hit
creates nothing) or an `atomspace_add_link` call (which creates a link unless
the outgoing list is empty). -/
inductive store_op where
  | node (now : Nat) (t : atom_type) (n : String)
  | link (now : Nat) (t : link_type) (outs : List atom)

/-- Run one creation attempt, reporting the handle of the object it created
(`none` when nothing was created: the op was `node` on an existing
`(type, name)` pair — which returns the existing atom — or `link` with an
empty outgoing list). -/
def run_op (as : atom_space) : store_op → Option Nat × atom_space
  | store_op.node now t n =>
    match atomspace_find_node now as t n with
    | (some _, as') => (none, as')
    | (none, _) =>
      match atomspace_add_node now as t (some n) with
      | (some a, as') => (some a.handle, as')
      | (none, as') => (none, as')
  | store_op.link now t outs =>
    match atomspace_add_link now as t outs with
    | (some l, as') => (some l.handle, as')
    | (none, as') => (none, as')

/-- Run a sequence of creation attempts, collecting the handles of the
objects actually created, in order. -/
def run_ops (as : atom_space) : List store_op → List Nat × atom_space
  | [] => ([], as)
  | op :: rest =>
    let r := run_op as op
    let rr := run_ops r.2 rest
    (r.1.toList ++ rr.1, rr.2)

theorem run_op_spec (as : atom_space) (op : store_op) :
    ((run_op as op).1 = none ∧ (run_op as op).2.next_handle = as.next_handle) ∨
    ((run_op as op).1 = some as.next_handle ∧
      (run_op as op).2.next_handle = as.next_handle + 1) := by
  cases op with
  | node now t n =>
    cases hft : find_touch now t n (as.atom_table (atom_hash n % ATOM_TABLE_SIZE)) with
    | none =>
      right
      rw [run_op, atomspace_find_node_of_none hft, atomspace_add_node_miss hft]
      exact ⟨rfl, rfl⟩
    | some p =>
      rcases p with ⟨a, l'⟩
      left
      rw [run_op, atomspace_find_node_of_some hft]
      exact ⟨rfl, rfl⟩
  | link now t outs =>
    by_cases ho : outs = []
    · left
      rw [run_op, atomspace_add_link, if_pos ho]
      exact ⟨rfl, rfl⟩
    · right
      rw [run_op, atomspace_add_link, if_neg ho]
      exact ⟨rfl, rfl⟩

theorem run_ops_handles :
    ∀ (ops : List store_op) (as : atom_space),
      List.Pairwise (· < ·) (run_ops as ops).1 ∧
      (∀ h ∈ (run_ops as ops).1, as.next_handle ≤ h) ∧
      as.next_handle ≤ (run_ops as ops).2.next_handle := by
  intro ops
  induction ops with
  | nil =>
    intro as
    refine ⟨List.Pairwise.nil, ?_, Nat.le_refl _⟩
    intro h hh
    cases hh
  | cons op rest ih =>
    intro as
    obtain ⟨hp, hlb, hmono⟩ := ih (run_op as op).2
    have hrw : run_ops as (op :: rest) =
        ((run_op as op).1.toList ++ (run_ops (run_op as op).2 rest).1,
         (run_ops (run_op as op).2 rest).2) := rfl
    rcases run_op_spec as op with ⟨h1, h2⟩ | ⟨h1, h2⟩
    · rw [hrw, h1]
      refine ⟨by simpa using hp, ?_, ?_⟩
      · intro h hh
        simp only [Option.toList_none, List.nil_append] at hh
        exact h2 ▸ hlb h hh
      · show as.next_handle ≤ (run_ops (run_op as op).2 rest).2.next_handle
        omega
    · rw [hrw, h1]
      refine ⟨?_, ?_, ?_⟩
      · simp only [Option.toList_some, List.singleton_append]
        refine List.Pairwise.cons ?_ hp
        intro h hh
        have := hlb h hh
        omega
      · intro h hh
        simp only [Option.toList_some, List.singleton_append, List.mem_cons] at hh
        rcases hh with hh | hh
        · omega
        · have := hlb h hh
          omega
      · show as.next_handle ≤ (run_ops (run_op as op).2 rest).2.next_handle
        omega

/-! ## Facts about the PLN revision formula -/

theorem pln_apply_revision_comm (ctx : pln_inference_context) (tv1 tv2 : truth_value) :
    pln_apply_revision ctx tv1 tv2 = pln_apply_revision ctx tv2 tv1 := by
  unfold pln_apply_revision
  dsimp only
  rw [add_comm tv2.confidence tv1.confidence]
  split
  · refine truth_value.ext ?_ ?_ <;> ring_nf
  · rfl

theorem pln_apply_revision_zero_zero (ctx : pln_inference_context) (s1 s2 : ℚ) :
    pln_apply_revision ctx ⟨s1, 0⟩ ⟨s2, 0⟩ = ⟨1 / 2, 0⟩ := by
  unfold pln_apply_revision
  norm_num

theorem pln_apply_revision_conf_mono (ctx : pln_inference_context)
    (s1 s2 c1 c1' c2 : ℚ) (h0 : 0 ≤ c1) (h1 : c1 ≤ c1') (h2 : c1' ≤ 1)
    (h3 : 0 ≤ c2) (h4 : c2 ≤ 1) :
    (pln_apply_revision ctx ⟨s1, c1⟩ ⟨s2, c2⟩).confidence ≤
      (pln_apply_revision ctx ⟨s1, c1'⟩ ⟨s2, c2⟩).confidence := by
  unfold pln_apply_revision
  by_cases hc : c1 + c2 > 0
  · have hc' : c1' + c2 > 0 := by linarith
    rw [if_pos hc, if_pos hc']
    show (c1 + c2) / (1 + c1 * c2) ≤ (c1' + c2) / (1 + c1' * c2)
    have hd1 : (0 : ℚ) < 1 + c1 * c2 := by nlinarith
    have hd2 : (0 : ℚ) < 1 + c1' * c2 := by nlinarith
    rw [div_le_div_iff hd1 hd2]
    have hsq : c2 * c2 ≤ 1 := by nlinarith
    nlinarith [mul_nonneg (sub_nonneg.mpr h1) (sub_nonneg.mpr hsq)]
  · rw [if_neg hc]
    by_cases hc' : c1' + c2 > 0
    · rw [if_pos hc']
      show (0 : ℚ) ≤ (c1' + c2) / (1 + c1' * c2)
      have hd2 : (0 : ℚ) < 1 + c1' * c2 := by nlinarith
      positivity
    · rw [if_neg hc']

/-- C4: the truth-value revision is commutative, maps two zero-confidence
inputs to `(0.5, 0.0)` regardless of strengths, and its output confidence is
non-decreasing in either input confidence over `[0, 1]`. -/
theorem C4_merge_tv_algebra :
    (∀ (ctx : pln_inference_context) (tv1 tv2 : truth_value),
      pln_apply_revision ctx tv1 tv2 = pln_apply_revision ctx tv2 tv1) ∧
    (∀ (ctx : pln_inference_context) (s1 s2 : ℚ),
      pln_apply_revision ctx ⟨s1, 0⟩ ⟨s2, 0⟩ = ⟨1 / 2, 0⟩) ∧
    (∀ (ctx : pln_inference_context) (s1 s2 c1 c1' c2 : ℚ),
      0 ≤ c1 → c1 ≤ c1' → c1' ≤ 1 → 0 ≤ c2 → c2 ≤ 1 →
      (pln_apply_revision ctx ⟨s1, c1⟩ ⟨s2, c2⟩).confidence ≤
        (pln_apply_revision ctx ⟨s1, c1'⟩ ⟨s2, c2⟩).confidence) ∧
    (∀ (ctx : pln_inference_context) (s1 s2 c1 c2 c2' : ℚ),
      0 ≤ c2 → c2 ≤ c2' → c2' ≤ 1 → 0 ≤ c1 → c1 ≤ 1 →
      (pln_apply_revision ctx ⟨s1, c1⟩ ⟨s2, c2⟩).confidence ≤
        (pln_apply_revision ctx ⟨s1, c1⟩ ⟨s2, c2'⟩).confidence) := by
  refine ⟨pln_apply_revision_comm, pln_apply_revision_zero_zero,
    pln_apply_revision_conf_mono, ?_⟩
  intro ctx s1 s2 c1 c2 c2' h0 h1 h2 h3 h4
  rw [pln_apply_revision_comm ctx ⟨s1, c1⟩ ⟨s2, c2⟩,
      pln_apply_revision_comm ctx ⟨s1, c1⟩ ⟨s2, c2'⟩]
  exact pln_apply_revision_conf_mono ctx s2 s1 c2 c2' c1 h0 h1 h2 h3 h4

/-- Witness for C4: the hypothesis-bearing monotonicity parts instantiated at
concrete confidences. -/
theorem C4_merge_tv_algebra_witness :
    ((0 : ℚ) ≤ 1 / 3 ∧ (1 / 3 : ℚ) ≤ 2 / 3 ∧ (2 / 3 : ℚ) ≤ 1 ∧
      (0 : ℚ) ≤ 1 / 2 ∧ (1 / 2 : ℚ) ≤ 1) ∧
    (pln_apply_revision pln_context_create ⟨1, 1 / 3⟩ ⟨0, 1 / 2⟩).confidence ≤
      (pln_apply_revision pln_context_create ⟨1, 2 / 3⟩ ⟨0, 1 / 2⟩).confidence ∧
    (pln_apply_revision pln_context_create ⟨1, 1 / 2⟩ ⟨0, 1 / 3⟩).confidence ≤
      (pln_apply_revision pln_context_create ⟨1, 1 / 2⟩ ⟨0, 2 / 3⟩).confidence :=
  ⟨⟨by norm_num, by norm_num, by norm_num, by norm_num, by norm_num⟩,
   C4_merge_tv_algebra.2.2.1 pln_context_create 1 0 (1 / 3) (2 / 3) (1 / 2)
     (by norm_num) (by norm_num) (by norm_num) (by norm_num) (by norm_num),
   C4_merge_tv_algebra.2.2.2 pln_context_create 1 0 (1 / 2) (1 / 3) (2 / 3)
     (by norm_num) (by norm_num) (by norm_num) (by norm_num) (by norm_num)⟩

/-! ## Conflict resolution (claims C2 and C5) -/

def c2_local : atom :=
  { handle := 1, type := atom_type.ATOM_CONCEPT, name := "localcopy",
    tv := ⟨1, 0⟩, av := zero_av, created := 0, last_accessed := 100,
    access_count := 0 }

def c2_remote : atom :=
  { handle := 2, type := atom_type.ATOM_CONCEPT, name := "remotecopy",
    tv := ⟨0, 0⟩, av := zero_av, created := 0, last_accessed := 100,
    access_count := 0 }

def c2_das_lw : distributed_atomspace :=
  distributed_atomspace_set_conflict_strategy
    (distributed_atomspace_create atomspace_create)
    conflict_strategy.CONFLICT_LATEST_WINS

def c2_das_hc : distributed_atomspace :=
  distributed_atomspace_set_conflict_strategy
    (distributed_atomspace_create atomspace_create)
    conflict_strategy.CONFLICT_HIGHEST_CONFIDENCE

/-- C2 counterexample: local and remote atoms with equal `last_accessed` and
equal `tv.confidence`; both strict comparisons fail, so both strategies
return the REMOTE atom — ties do not favor local. -/
theorem C2_ties_counterexample :
    c2_local.last_accessed = c2_remote.last_accessed ∧
    c2_local.tv.confidence = c2_remote.tv.confidence ∧
    c2_local ≠ c2_remote ∧
    (distributed_atomspace_resolve_conflict c2_das_lw c2_local c2_remote).fst = c2_remote ∧
    (distributed_atomspace_resolve_conflict c2_das_hc c2_local c2_remote).fst = c2_remote := by
  refine ⟨rfl, rfl, by decide, by decide, by decide⟩

/-- C2 (amended): LatestWins returns the local atom exactly when its
`last_accessed` is strictly greater and the remote atom otherwise, so ties
favor the remote atom; HighestConfidence behaves the same way on
`tv.confidence`. -/
theorem C2_amended_conflict_choice (das : distributed_atomspace)
    (local_atom remote_atom : atom) :
    (das.conflict_resolution = conflict_strategy.CONFLICT_LATEST_WINS →
      (local_atom.last_accessed > remote_atom.last_accessed →
        (distributed_atomspace_resolve_conflict das local_atom remote_atom).fst = local_atom) ∧
      (local_atom.last_accessed ≤ remote_atom.last_accessed →
        (distributed_atomspace_resolve_conflict das local_atom remote_atom).fst = remote_atom)) ∧
    (das.conflict_resolution = conflict_strategy.CONFLICT_HIGHEST_CONFIDENCE →
      (local_atom.tv.confidence > remote_atom.tv.confidence →
        (distributed_atomspace_resolve_conflict das local_atom remote_atom).fst = local_atom) ∧
      (local_atom.tv.confidence ≤ remote_atom.tv.confidence →
        (distributed_atomspace_resolve_conflict das local_atom remote_atom).fst = remote_atom)) := by
  constructor
  · intro hs
    unfold distributed_atomspace_resolve_conflict
    rw [hs]
    constructor
    · intro h
      show (if local_atom.last_accessed > remote_atom.last_accessed
            then local_atom else remote_atom) = local_atom
      rw [if_pos h]
    · intro h
      show (if local_atom.last_accessed > remote_atom.last_accessed
            then local_atom else remote_atom) = remote_atom
      rw [if_neg (not_lt.mpr h)]
  · intro hs
    unfold distributed_atomspace_resolve_conflict
    rw [hs]
    constructor
    · intro h
      show (if local_atom.tv.confidence > remote_atom.tv.confidence
            then local_atom else remote_atom) = local_atom
      rw [if_pos h]
    · intro h
      show (if local_atom.tv.confidence > remote_atom.tv.confidence
            then local_atom else remote_atom) = remote_atom
      rw [if_neg (not_lt.mpr h)]

def c2w_local : atom :=
  { handle := 1, type := atom_type.ATOM_CONCEPT, name := "localcopy",
    tv := ⟨1, 3 / 4⟩, av := zero_av, created := 0, last_accessed := 9,
    access_count := 0 }

def c2w_remote : atom :=
  { handle := 2, type := atom_type.ATOM_CONCEPT, name := "remotecopy",
    tv := ⟨0, 1 / 4⟩, av := zero_av, created := 0, last_accessed := 3,
    access_count := 0 }

/-- Witness for C2 (amended): both strategy hypotheses and a strict
comparison discharged at concrete atoms. -/
theorem C2_amended_conflict_choice_witness :
    (c2_das_lw.conflict_resolution = conflict_strategy.CONFLICT_LATEST_WINS ∧
      c2w_local.last_accessed > c2w_remote.last_accessed ∧
      (distributed_atomspace_resolve_conflict c2_das_lw c2w_local c2w_remote).fst = c2w_local) ∧
    (c2_das_hc.conflict_resolution = conflict_strategy.CONFLICT_HIGHEST_CONFIDENCE ∧
      c2w_local.tv.confidence > c2w_remote.tv.confidence ∧
      (distributed_atomspace_resolve_conflict c2_das_hc c2w_local c2w_remote).fst = c2w_local) :=
  ⟨⟨rfl, by decide,
    ((C2_amended_conflict_choice c2_das_lw c2w_local c2w_remote).1 rfl).1 (by decide)⟩,
   ⟨rfl, by norm_num [c2w_local, c2w_remote],
    ((C2_amended_conflict_choice c2_das_hc c2w_local c2w_remote).2 rfl).1
      (by norm_num [c2w_local, c2w_remote])⟩⟩

/-- C5: under the MergeTV strategy the resolver returns the local atom with
its truth value overwritten by `((s1*c1 + s2*c2)/(c1+c2), (c1+c2)/(1+c1*c2))`
when `c1 + c2 > 0` (else `(0.5, 0.0)`), and increments the
`conflicts_resolved` counter. -/
theorem C5_merge_tv_resolution (das : distributed_atomspace)
    (local_atom remote_atom : atom)
    (hs : das.conflict_resolution = conflict_strategy.CONFLICT_MERGE_TV) :
    (distributed_atomspace_resolve_conflict das local_atom remote_atom).fst =
      { local_atom with tv :=
          if local_atom.tv.confidence + remote_atom.tv.confidence > 0 then
            { strength := (local_atom.tv.strength * local_atom.tv.confidence +
                remote_atom.tv.strength * remote_atom.tv.confidence) /
                (local_atom.tv.confidence + remote_atom.tv.confidence),
              confidence := (local_atom.tv.confidence + remote_atom.tv.confidence) /
                (1 + local_atom.tv.confidence * remote_atom.tv.confidence) }
          else { strength := 1 / 2, confidence := 0 } } ∧
    (distributed_atomspace_resolve_conflict das local_atom remote_atom).snd.sync_state.conflicts_resolved =
      das.sync_state.conflicts_resolved + 1 := by
  unfold distributed_atomspace_resolve_conflict
  rw [hs]
  exact ⟨rfl, rfl⟩

def c5_das : distributed_atomspace := distributed_atomspace_create atomspace_create

/-- Witness for C5: the strategy hypothesis discharged at the
freshly created manager (whose default strategy is MergeTV). -/
theorem C5_merge_tv_resolution_witness :
    c5_das.conflict_resolution = conflict_strategy.CONFLICT_MERGE_TV ∧
    ((distributed_atomspace_resolve_conflict c5_das c2w_local c2w_remote).fst =
      { c2w_local with tv :=
          if c2w_local.tv.confidence + c2w_remote.tv.confidence > 0 then
            { strength := (c2w_local.tv.strength * c2w_local.tv.confidence +
                c2w_remote.tv.strength * c2w_remote.tv.confidence) /
                (c2w_local.tv.confidence + c2w_remote.tv.confidence),
              confidence := (c2w_local.tv.confidence + c2w_remote.tv.confidence) /
                (1 + c2w_local.tv.confidence * c2w_remote.tv.confidence) }
          else { strength := 1 / 2, confidence := 0 } } ∧
     (distributed_atomspace_resolve_conflict c5_das c2w_local c2w_remote).snd.sync_state.conflicts_resolved =
       c5_das.sync_state.conflicts_resolved + 1) :=
  ⟨rfl, C5_merge_tv_resolution c5_das c2w_local c2w_remote rfl⟩

/-! ## Claim C1: the end-to-end sync_full counter scenario -/

def c1_store : atom_space :=
  (atomspace_add_node 0
    ((atomspace_add_node 0
      ((atomspace_add_node 0
        ((atomspace_add_node 0
          ((atomspace_add_node 0 atomspace_create
              atom_type.ATOM_CONCEPT (some "n1")).snd)
          atom_type.ATOM_CONCEPT (some "n2")).snd)
        atom_type.ATOM_CONCEPT (some "n3")).snd)
      atom_type.ATOM_CONCEPT (some "n4")).snd)
    atom_type.ATOM_CONCEPT (some "n5")).snd

def c1_das_registered : distributed_atomspace :=
  (distributed_atomspace_add_node
    ((distributed_atomspace_add_node
        (distributed_atomspace_create c1_store) 873).snd) 873).snd

def c1_das_connected : distributed_atomspace :=
  (distributed_atomspace_connect
    ((distributed_atomspace_connect c1_das_registered 1).snd) 2).snd

def c1_sync : Nat × distributed_atomspace :=
  distributed_atomspace_sync_full 7 c1_das_connected 0

/-- C1: in the spec's end-to-end scenario (two registered and connected
remote nodes, a local store of exactly 5 atoms, empty attention queue,
`sync_full(0)`), the sync-state snapshot reports `atoms_sent = 15`, not the
claimed 10: the loop's `synced` accumulator is never reset between nodes, so
the second connected node adds the running total 5 + 10.  The function's own
return value counts the 10 transmissions correctly, pinpointing the
`atoms_sent += synced` double count. -/
theorem C1_sync_full_counter :
    c1_store.atom_count = 5 ∧
    c1_das_connected.node_count = 2 ∧
    (∀ node ∈ c1_das_connected.nodes, node.connected = true) ∧
    (∀ j, c1_store.attention_queue j = none) ∧
    c1_sync.fst = 10 ∧
    (distributed_atomspace_get_sync_state c1_sync.snd).atoms_sent = 15 ∧
    ¬(distributed_atomspace_get_sync_state c1_sync.snd).atoms_sent = 10 := by
  refine ⟨rfl, rfl, by decide, fun j => rfl, by decide, by decide, by decide⟩

/-! ## Claim C6: repeated add_node on the same (type, name) -/

theorem prepend_atom_table_at (as : atom_space) (a : atom) (j : Nat)
    (hj : j = atom_hash a.name % ATOM_TABLE_SIZE) :
    (prepend_atom as a).atom_table j = a :: as.atom_table j := by
  show (if j = atom_hash a.name % ATOM_TABLE_SIZE
        then a :: as.atom_table j else as.atom_table j) = a :: as.atom_table j
  rw [if_pos hj]

theorem set_bucket_table_at (as : atom_space) (b : Nat) (L : List atom) (j : Nat)
    (hj : j = b) : (set_bucket as b L).atom_table j = L := by
  show (if j = b then L else as.atom_table j) = L
  rw [if_pos hj]

/-- C6 (amended): for every store, a second `add_node` with the same
`(type, name)` finds the atom created or found by the first call and returns
it with handle, type, name, truth value and attention value unchanged and
`atom_count` unchanged; only the access bookkeeping changes — the returned
atom is the first call's atom with `last_accessed` set to the second call's
clock and `access_count` incremented (the source updates these in place on
every successful lookup). -/
theorem C6_amended_idempotent_add (now1 now2 : Nat) (as : atom_space)
    (t : atom_type) (n : String) :
    ∃ a1 a2,
      (atomspace_add_node now1 as t (some n)).fst = some a1 ∧
      (atomspace_add_node now2 (atomspace_add_node now1 as t (some n)).snd
          t (some n)).fst = some a2 ∧
      a2 = touch_atom now2 a1 ∧
      a2.handle = a1.handle ∧ a2.type = a1.type ∧ a2.name = a1.name ∧
      a2.tv = a1.tv ∧ a2.av = a1.av ∧
      a2.access_count = a1.access_count + 1 ∧ a2.last_accessed = now2 ∧
      (atomspace_add_node now2 (atomspace_add_node now1 as t (some n)).snd
          t (some n)).snd.atom_count =
        (atomspace_add_node now1 as t (some n)).snd.atom_count := by
  cases hft : find_touch now1 t n (as.atom_table (atom_hash n % ATOM_TABLE_SIZE)) with
  | none =>
    have h1 := atomspace_add_node_miss hft
    have hbuck : (prepend_atom as (fresh_atom now1 as t n)).atom_table
        (atom_hash n % ATOM_TABLE_SIZE) =
        fresh_atom now1 as t n :: as.atom_table (atom_hash n % ATOM_TABLE_SIZE) :=
      prepend_atom_table_at as _ _ rfl
    have hft2 : find_touch now2 t n
        ((prepend_atom as (fresh_atom now1 as t n)).atom_table
          (atom_hash n % ATOM_TABLE_SIZE)) =
        some (touch_atom now2 (fresh_atom now1 as t n),
              touch_atom now2 (fresh_atom now1 as t n) ::
                as.atom_table (atom_hash n % ATOM_TABLE_SIZE)) := by
      rw [hbuck, find_touch, if_pos ⟨rfl, rfl⟩]
    have h2 := atomspace_add_node_hit hft2
    refine ⟨fresh_atom now1 as t n, touch_atom now2 (fresh_atom now1 as t n),
      ?_, ?_, rfl, rfl, rfl, rfl, rfl, rfl, rfl, rfl, ?_⟩
    · rw [h1]
    · simp only [h1]
      rw [h2]
    · simp only [h1]
      rw [h2]
      rfl
  | some p =>
    rcases p with ⟨a1', l'⟩
    have h1 := atomspace_add_node_hit hft
    obtain ⟨l1, a0, l2, heq, hmiss, ht0, hn0, ha1, hl'⟩ :=
      find_touch_eq_some now1 t n _ a1' l' hft
    subst ha1
    subst hl'
    have hbuck2 : (set_bucket as (atom_hash n % ATOM_TABLE_SIZE)
        (l1 ++ touch_atom now1 a0 :: l2)).atom_table (atom_hash n % ATOM_TABLE_SIZE) =
        l1 ++ touch_atom now1 a0 :: l2 :=
      set_bucket_table_at _ _ _ _ rfl
    have hft2 : find_touch now2 t n
        ((set_bucket as (atom_hash n % ATOM_TABLE_SIZE)
          (l1 ++ touch_atom now1 a0 :: l2)).atom_table (atom_hash n % ATOM_TABLE_SIZE)) =
        some (touch_atom now2 (touch_atom now1 a0),
              l1 ++ touch_atom now2 (touch_atom now1 a0) :: l2) := by
      rw [hbuck2]
      exact find_touch_of_split now2 t n l1 (touch_atom now1 a0) l2 hmiss ht0 hn0
    have h2 := atomspace_add_node_hit hft2
    refine ⟨touch_atom now1 a0, touch_atom now2 (touch_atom now1 a0),
      ?_, ?_, rfl, rfl, rfl, rfl, rfl, rfl, rfl, rfl, ?_⟩
    · rw [h1]
    · simp only [h1]
      rw [h2]
    · simp only [h1]
      rw [h2]
      rfl

def c6_first : Option atom × atom_space :=
  atomspace_add_node 10 atomspace_create atom_type.ATOM_CONCEPT (some "x")

def c6_second : Option atom × atom_space :=
  atomspace_add_node 20 c6_first.snd atom_type.ATOM_CONCEPT (some "x")

/-- C6 counterexample: the second `add_node` call does NOT return the
existing atom unchanged — the embedded lookup bumps `access_count` from 0 to
1 (and refreshes `last_accessed`) in place, so the returned atom differs
from the atom the first call returned, even though handle and `atom_count`
agree. -/
theorem C6_touch_counterexample :
    c6_second.fst ≠ c6_first.fst ∧
    c6_first.fst.map atom.access_count = some 0 ∧
    c6_second.fst.map atom.access_count = some 1 ∧
    c6_second.fst.map atom.handle = c6_first.fst.map atom.handle ∧
    c6_second.snd.atom_count = c6_first.snd.atom_count := by
  refine ⟨by decide, by decide, by decide, by decide, by decide⟩

/-! ## Claim C3: persistence round trip -/

/-- C3 (amended): for every store built through the AtomStore factory
operations all of whose atoms have non-empty names, loading the saved binary
snapshot yields a store with the same `atom_count` and, for every atom of the
original, an atom with equal handle, type, name, truth value and attention
value.  (An atom with an empty name is written with `name_len = 0`, loaded
back as a `NULL` name, rejected by `atomspace_add_node`, and silently
dropped — see the counterexample.) -/
theorem C3_amended_roundtrip (now1 now2 : Nat) (S : atom_space)
    (hreach : Reachable S) (hnames : ∀ a ∈ allAtoms S, a.name ≠ "") :
    ∃ S', atomspace_load_binary now2 (atomspace_save_binary now1 S) = some S' ∧
      S'.atom_count = S.atom_count ∧
      ∀ a ∈ allAtoms S, ∃ a' ∈ allAtoms S',
        a'.handle = a.handle ∧ a'.type = a.type ∧ a'.name = a.name ∧
        a'.tv = a.tv ∧ a'.av = a.av := by
  have hwf := hreach.wf
  have hreclen : (atomspace_save_binary now1 S).records.length = (allAtoms S).length := by
    show ((allAtoms S).map atom_to_record).length = (allAtoms S).length
    exact List.length_map _ _
  have hload : atomspace_load_binary now2 (atomspace_save_binary now1 S) =
      some (((atomspace_save_binary now1 S).records.take
        (atomspace_save_binary now1 S).header.atom_count).foldl
          (load_record now2) atomspace_create) := by
    unfold atomspace_load_binary
    rw [if_pos ⟨rfl, rfl⟩]
  have htake : (atomspace_save_binary now1 S).records.take
      (atomspace_save_binary now1 S).header.atom_count =
      (atomspace_save_binary now1 S).records := by
    apply List.take_of_length_le
    rw [hreclen]
    show (allAtoms S).length ≤ S.atom_count
    rw [hwf.count_eq]
  rw [htake] at hload
  have hrn : ∀ r ∈ (atomspace_save_binary now1 S).records, r.name ≠ "" := by
    intro r hr
    obtain ⟨a, ha, hra⟩ := List.mem_map.mp hr
    rw [← hra]
    exact hnames a ha
  have hnodup : ((atomspace_save_binary now1 S).records.map record_key).Nodup := by
    show (((allAtoms S).map atom_to_record).map record_key).Nodup
    rw [List.map_map]
    exact hwf.keys_nodup
  have hfresh : ∀ r ∈ (atomspace_save_binary now1 S).records,
      ∀ x ∈ allAtoms atomspace_create, atom_key x ≠ record_key r := by
    intro r _ x hx
    rw [allAtoms_create] at hx
    cases hx
  obtain ⟨hc, _, hm⟩ :=
    load_fold now2 (atomspace_save_binary now1 S).records atomspace_create hrn hnodup hfresh
  refine ⟨_, hload, ?_, ?_⟩
  · rw [hc, hreclen]
    show 0 + (allAtoms S).length = S.atom_count
    rw [← hwf.count_eq]
    omega
  · intro a ha
    refine ⟨record_atom now2 (atom_to_record a), ?_, rfl, rfl, rfl, rfl, rfl⟩
    rw [hm]
    right
    exact ⟨atom_to_record a, List.mem_map_of_mem atom_to_record ha, rfl⟩

def c3_cex_store : atom_space :=
  (atomspace_add_node 0 atomspace_create atom_type.ATOM_CONCEPT (some "")).snd

/-- C3 counterexample: a store holding one atom whose name is the empty
string round-trips to a store with zero atoms — the record is written with
`name_len = 0`, loaded back as a `NULL` name and dropped, so `atom_count`
is not preserved. -/
theorem C3_roundtrip_counterexample :
    c3_cex_store.atom_count = 1 ∧
    (atomspace_load_binary 0 (atomspace_save_binary 0 c3_cex_store)).map
      atom_space.atom_count = some 0 := by
  refine ⟨by decide, by decide⟩

def c3w_store : atom_space :=
  (atomspace_add_node 0 atomspace_create atom_type.ATOM_MODULE (some "data")).snd

/-- Witness for C3 (amended): a reachable one-atom store with a non-empty
name, its hypotheses discharged concretely. -/
theorem C3_amended_roundtrip_witness :
    Reachable c3w_store ∧ (∀ a ∈ allAtoms c3w_store, a.name ≠ "") ∧
    (∃ S', atomspace_load_binary 1 (atomspace_save_binary 0 c3w_store) = some S' ∧
      S'.atom_count = c3w_store.atom_count ∧
      ∀ a ∈ allAtoms c3w_store, ∃ a' ∈ allAtoms S',
        a'.handle = a.handle ∧ a'.type = a.type ∧ a'.name = a.name ∧
        a'.tv = a.tv ∧ a'.av = a.av) := by
  have hr : Reachable c3w_store :=
    Reachable.add_node 0 atom_type.ATOM_MODULE (some "data") Reachable.create
  have hn : ∀ a ∈ allAtoms c3w_store, a.name ≠ "" := by decide
  exact ⟨hr, hn, C3_amended_roundtrip 0 1 c3w_store hr hn⟩

/-! ## Claim C8: load failure behavior -/

/-- C8 (amended): a header whose magic or version mismatches makes the load
fail with no store.  A snapshot of a factory-built store with non-empty
names, truncated inside record `k + 1` (so exactly `k` complete records
remain in the stream), loads to a store holding exactly the atoms of those
`k` records — with `atom_count = k` — provided every atom name is non-empty
(a fully read record with `name_len = 0` would additionally be dropped, see
the C8 counterexample). -/
theorem C8_amended_load_failures :
    (∀ (now : Nat) (f : atomspace_file),
      f.header.magic ≠ ATOMSPACE_FILE_MAGIC ∨
        f.header.version ≠ ATOMSPACE_FILE_VERSION →
      atomspace_load_binary now f = none) ∧
    (∀ (now1 now2 k : Nat) (S : atom_space), Reachable S →
      (∀ a ∈ allAtoms S, a.name ≠ "") →
      k < (atomspace_save_binary now1 S).records.length →
      ∃ S', atomspace_load_binary now2
          { header := (atomspace_save_binary now1 S).header,
            records := (atomspace_save_binary now1 S).records.take k } = some S' ∧
        S'.atom_count = k ∧
        (∀ x, x ∈ allAtoms S' ↔
          ∃ r ∈ (atomspace_save_binary now1 S).records.take k,
            x = record_atom now2 r)) := by
  constructor
  · intro now f h
    unfold atomspace_load_binary
    rw [if_neg]
    intro hcontra
    rcases h with h | h
    · exact h hcontra.1
    · exact h hcontra.2
  · intro now1 now2 k S hreach hnames hk
    have hwf := hreach.wf
    have hreclen : (atomspace_save_binary now1 S).records.length = (allAtoms S).length :=
      List.length_map _ _
    have hcount : (atomspace_save_binary now1 S).header.atom_count =
        (atomspace_save_binary now1 S).records.length := by
      show S.atom_count = _
      rw [hreclen, hwf.count_eq]
    have hload : atomspace_load_binary now2
        { header := (atomspace_save_binary now1 S).header,
          records := (atomspace_save_binary now1 S).records.take k } =
        some ((((atomspace_save_binary now1 S).records.take k).take
          (atomspace_save_binary now1 S).header.atom_count).foldl
            (load_record now2) atomspace_create) := by
      unfold atomspace_load_binary
      rw [if_pos ⟨rfl, rfl⟩]
    have htake2 : ((atomspace_save_binary now1 S).records.take k).take
        (atomspace_save_binary now1 S).header.atom_count =
        (atomspace_save_binary now1 S).records.take k := by
      apply List.take_of_length_le
      rw [hcount, List.length_take]
      omega
    rw [htake2] at hload
    have hrn : ∀ r ∈ (atomspace_save_binary now1 S).records.take k, r.name ≠ "" := by
      intro r hr
      have hr' : r ∈ (atomspace_save_binary now1 S).records := List.take_subset k _ hr
      obtain ⟨a, ha, hra⟩ := List.mem_map.mp hr'
      rw [← hra]
      exact hnames a ha
    have hbig : ((atomspace_save_binary now1 S).records.map record_key).Nodup := by
      show (((allAtoms S).map atom_to_record).map record_key).Nodup
      rw [List.map_map]
      exact hwf.keys_nodup
    have hnodup : (((atomspace_save_binary now1 S).records.take k).map record_key).Nodup := by
      rw [List.map_take]
      exact (List.take_sublist k _).nodup hbig
    have hfresh : ∀ r ∈ (atomspace_save_binary now1 S).records.take k,
        ∀ x ∈ allAtoms atomspace_create, atom_key x ≠ record_key r := by
      intro r _ x hx
      rw [allAtoms_create] at hx
      cases hx
    obtain ⟨hc, _, hm⟩ :=
      load_fold now2 ((atomspace_save_binary now1 S).records.take k)
        atomspace_create hrn hnodup hfresh
    refine ⟨_, hload, ?_, ?_⟩
    · rw [hc, List.length_take]
      show 0 + min k (atomspace_save_binary now1 S).records.length = k
      omega
    · intro x
      rw [hm x, allAtoms_create]
      simp

def c8_cex_file : atomspace_file :=
  { header :=
      { magic := ATOMSPACE_FILE_MAGIC, version := ATOMSPACE_FILE_VERSION,
        atom_count := 2, link_count := 0, created_time := 0, saved_time := 0 },
    records :=
      [{ handle := 7, type := atom_type.ATOM_CONCEPT, name := "",
         tv := default_tv, av := zero_av }] }

/-- C8 counterexample: a stream announcing two atoms, holding one complete
record (with `name_len = 0`) and truncated inside the second.  The one fully
read record does NOT end up in the returned store — `add_node` rejects its
`NULL` name — so the store does not contain exactly the atoms read before the
truncation (`atom_count` is 0, not 1). -/
theorem C8_truncation_counterexample :
    c8_cex_file.records.length = 1 ∧
    c8_cex_file.records.length < c8_cex_file.header.atom_count ∧
    (atomspace_load_binary 0 c8_cex_file).map atom_space.atom_count = some 0 := by
  refine ⟨rfl, by decide, by decide⟩

def c8w_store : atom_space :=
  (atomspace_add_node 0
    ((atomspace_add_node 0 atomspace_create
        atom_type.ATOM_CONCEPT (some "aa")).snd)
    atom_type.ATOM_CONCEPT (some "bb")).snd

def c8_badmagic_file : atomspace_file :=
  { header :=
      { magic := 0, version := ATOMSPACE_FILE_VERSION, atom_count := 0,
        link_count := 0, created_time := 0, saved_time := 0 },
    records := [] }

/-- Witness for C8 (amended): a reachable two-atom store truncated after one
record, plus a concrete bad-magic file for the header part. -/
theorem C8_amended_load_failures_witness :
    (c8_badmagic_file.header.magic ≠ ATOMSPACE_FILE_MAGIC ∨
      c8_badmagic_file.header.version ≠ ATOMSPACE_FILE_VERSION) ∧
    atomspace_load_binary 3 c8_badmagic_file = none ∧
    Reachable c8w_store ∧
    (∀ a ∈ allAtoms c8w_store, a.name ≠ "") ∧
    1 < (atomspace_save_binary 0 c8w_store).records.length ∧
    (∃ S', atomspace_load_binary 2
        { header := (atomspace_save_binary 0 c8w_store).header,
          records := (atomspace_save_binary 0 c8w_store).records.take 1 } = some S' ∧
      S'.atom_count = 1 ∧
      (∀ x, x ∈ allAtoms S' ↔
        ∃ r ∈ (atomspace_save_binary 0 c8w_store).records.take 1,
          x = record_atom 2 r)) := by
  have hr : Reachable c8w_store :=
    Reachable.add_node 0 atom_type.ATOM_CONCEPT (some "bb")
      (Reachable.add_node 0 atom_type.ATOM_CONCEPT (some "aa") Reachable.create)
  have hn : ∀ a ∈ allAtoms c8w_store, a.name ≠ "" := by decide
  have hk : 1 < (atomspace_save_binary 0 c8w_store).records.length := by decide
  exact ⟨Or.inl (by decide),
    C8_amended_load_failures.1 3 _ (Or.inl (by decide)),
    hr, hn, hk,
    C8_amended_load_failures.2 0 2 1 c8w_store hr hn hk⟩

/-! ## Claim C9: add_link and store membership -/

def c9_ghost : atom :=
  { handle := 99, type := atom_type.ATOM_CONCEPT, name := "ghost",
    tv := default_tv, av := zero_av, created := 0, last_accessed := 0,
    access_count := 0 }

def c9_call : Option atom_link × atom_space :=
  atomspace_add_link 0 atomspace_create link_type.LINK_INHERITANCE [c9_ghost]

/-- C9 counterexample: `atomspace_add_link` on an empty store happily creates
a link whose outgoing set holds an atom the store does not own — the source
performs no membership check on the outgoing references. -/
theorem C9_membership_counterexample :
    c9_call.fst.map atom_link.outgoing = some [c9_ghost] ∧
    c9_ghost ∉ allAtoms c9_call.snd ∧
    allAtoms c9_call.snd = [] := by
  refine ⟨by decide, by decide, by decide⟩

/-- C9 (amended): `add_link` rejects only an empty outgoing list; any
non-empty list — checked for nothing else — is copied verbatim into a link
that takes the next handle, so a link's outgoing references need not resolve
to atoms known to the store. -/
theorem C9_amended_add_link (now : Nat) (as : atom_space) (t : link_type)
    (outs : List atom) (h : outs ≠ []) :
    ∃ l, (atomspace_add_link now as t outs).fst = some l ∧
      l.outgoing = outs ∧ l.handle = as.next_handle ∧
      (atomspace_add_link now as t outs).snd.atom_table = as.atom_table := by
  rw [atomspace_add_link, if_neg h]
  exact ⟨_, rfl, rfl, rfl, rfl⟩

/-- Witness for C9 (amended): the non-emptiness hypothesis discharged on the
ghost-atom list. -/
theorem C9_amended_add_link_witness :
    ([c9_ghost] ≠ ([] : List atom)) ∧
    (∃ l, (atomspace_add_link 0 atomspace_create
        link_type.LINK_INHERITANCE [c9_ghost]).fst = some l ∧
      l.outgoing = [c9_ghost] ∧ l.handle = atomspace_create.next_handle ∧
      (atomspace_add_link 0 atomspace_create
        link_type.LINK_INHERITANCE [c9_ghost]).snd.atom_table =
          atomspace_create.atom_table) :=
  ⟨by decide,
   C9_amended_add_link 0 atomspace_create link_type.LINK_INHERITANCE [c9_ghost]
     (by decide)⟩

/-! ## Claim C10: handle collision after a reload -/

def c10_first_node : Option atom × atom_space :=
  atomspace_add_node 0 atomspace_create atom_type.ATOM_CONCEPT (some "a")

def c10_with_link : Option atom_link × atom_space :=
  atomspace_add_link 0 c10_first_node.snd link_type.LINK_INHERITANCE
    c10_first_node.fst.toList

def c10_store : atom_space :=
  (atomspace_add_node 0 c10_with_link.snd atom_type.ATOM_CONCEPT (some "b")).snd

def c10_file : atomspace_file := atomspace_save_binary 0 c10_store

def c10_loaded : atom_space :=
  (c10_file.records.take c10_file.header.atom_count).foldl
    (load_record 0) atomspace_create

/-- C10: the store holds atoms "a" (handle 1) and "b" (handle 3) — the link
consumed handle 2 — but only atoms are persisted.  Loading the snapshot
overwrites each freshly allocated handle with the saved one while advancing
`next_handle` only once per record, leaving `next_handle = 3`; the next
`add_node` then allocates handle 3, which the loaded atom "b" already
carries, violating handle uniqueness. -/
theorem C10_handle_collision :
    atomspace_load_binary 0 c10_file = some c10_loaded ∧
    c10_store.next_handle = 4 ∧
    c10_loaded.next_handle = 3 ∧
    (∃ x ∈ allAtoms c10_loaded, x.handle = 3 ∧ x.name = "b") ∧
    (atomspace_add_node 0 c10_loaded atom_type.ATOM_CONCEPT (some "c")).fst.map
      atom.handle = some 3 ∧
    (atomspace_add_node 0 c10_loaded atom_type.ATOM_CONCEPT (some "c")).fst.map
      atom.name = some "c" := by
  refine ⟨rfl, by decide, by decide, by decide, by decide, by decide⟩

/-! ## Claim C7: handle monotonicity across interleaved creations -/

/-- C7: on any store, any interleaved sequence of node and link creations
yields a strictly increasing list of handles for the objects actually
created, and every created handle is drawn from the store's single
`next_handle` counter. -/
theorem C7_handle_monotonicity (as : atom_space) (ops : List store_op) :
    List.Pairwise (· < ·) (run_ops as ops).1 ∧
    (∀ (as' : atom_space) (op : store_op) (h : Nat),
      (run_op as' op).1 = some h → h = as'.next_handle) := by
  refine ⟨(run_ops_handles ops as).1, ?_⟩
  intro as' op h hh
  rcases run_op_spec as' op with ⟨h1, _⟩ | ⟨h1, _⟩
  · rw [h1] at hh
    cases hh
  · rw [h1] at hh
    injection hh with hh
    exact hh.symm

/-- Witness for C7: the counter-origin hypothesis discharged at a concrete
creation. -/
theorem C7_handle_monotonicity_witness :
    (run_op atomspace_create
        (store_op.node 0 atom_type.ATOM_CONCEPT "w")).1 = some 1 ∧
    (1 : Nat) = atomspace_create.next_handle :=
  ⟨by decide,
   (C7_handle_monotonicity atomspace_create []).2 atomspace_create
     (store_op.node 0 atom_type.ATOM_CONCEPT "w") 1 (by decide)⟩
